import Mathlib

/-!
Shallow embedding of `scripts/compile-support-docs.py`.

The script is a linear batch pipeline: discover `.mdx` files, filter out the
`snippets/` fragment directory, per file extract a frontmatter title, strip
the frontmatter block, strip JSX/MDX component tags, normalize whitespace
while protecting fenced code blocks, then assemble sections in sorted
absolute-path order under a count-bearing header.

Strings are modelled as `List Char` (`Str`).  Each Python regex used by the
script is embedded as a deterministic scanner that reproduces the
leftmost-match / greedy / lazy backtracking behaviour of `re` for that
particular pattern.  File reads that may raise are modelled by
`Option Str` contents; the final write outcome is modelled by a boolean
parameter to the embedded `main`.
-/

namespace CompileDocs

abbrev Str := List Char

/-- Python `\s` / `str.isspace` for the characters relevant here
(ASCII whitespace plus the common Unicode whitespace code points). -/
def pyIsSpace (c : Char) : Bool :=
  c = ' ' || c = '\t' || c = '\n' || c = '\r' || c = '\x0b' || c = '\x0c' ||
  c = '\x1c' || c = '\x1d' || c = '\x1e' || c = '\x1f' || c = '\x85' || c = '\xa0'

/-- `s.startswith(pre)` on char lists. -/
def startsWithL : Str → Str → Bool
  | [], _ => true
  | _ :: _, [] => false
  | a :: as, b :: bs => decide (a = b) && startsWithL as bs

/-- Substring test: does `pat` occur contiguously anywhere in `s`? -/
def containsL (pat : Str) : Str → Bool
  | [] => startsWithL pat []
  | c :: r => startsWithL pat (c :: r) || containsL pat r

/-- Python `str.strip()` (trim `\s` from both ends). -/
def listStrip (l : Str) : Str :=
  ((l.dropWhile pyIsSpace).reverse.dropWhile pyIsSpace).reverse

/-- Python `str.replace(a, b)` for single characters. -/
def replaceChar (a b : Char) : Str → Str :=
  List.map (fun c => if c = a then b else c)

def isUpperAZ (c : Char) : Bool := decide ('A' ≤ c) && decide (c ≤ 'Z')
def isAlphaAZ (c : Char) : Bool :=
  (decide ('A' ≤ c) && decide (c ≤ 'Z')) || (decide ('a' ≤ c) && decide (c ≤ 'z'))

/-- Length of the leading run of `[a-zA-Z]` characters. -/
def alphaRun : Str → Nat
  | [] => 0
  | c :: r => if isAlphaAZ c then alphaRun r + 1 else 0

/-- Length of the leading run of `\s` characters. -/
def spaceRun : Str → Nat
  | [] => 0
  | c :: r => if pyIsSpace c then spaceRun r + 1 else 0

/-! ## Frontmatter matching

Embeds `re.match` of the DOTALL pattern `^---\s*\n(.*?)\n---\s*\n`.
-/

/-- Candidate total lengths for `\s*\n` (a whitespace prefix whose last
consumed character is a newline), longest first — the order a greedy `\s*`
followed by a literal `\n` explores them. -/
def wsNlCands : Str → List Nat
  | [] => []
  | c :: r =>
    (if pyIsSpace c then (wsNlCands r).map (· + 1) else []) ++
    (if c = '\n' then [1] else [])

/-- Greedy `\s*\n` with no further constraint after it: take the longest
candidate (used for the trailing `\s*\n` of the frontmatter pattern). -/
def wsNlMax (l : Str) : Option Nat := (wsNlCands l).head?

/-- Scanner for `(.*?)\n---\s*\n` (lazy `.*?` in DOTALL mode, so the closing
delimiter is sought at the earliest possible position).  Returns the text
captured by `(.*?)` and the remainder after the whole close. -/
def findFmClose : Str → Option (Str × Str)
  | [] => none
  | c :: r =>
    if c = '\n' && startsWithL ('-' :: '-' :: '-' :: []) r then
      match wsNlMax (r.drop 3) with
      | some n => some ([], (r.drop 3).drop n)
      | none => (findFmClose r).map (fun p => (c :: p.1, p.2))
    else
      (findFmClose r).map (fun p => (c :: p.1, p.2))

/-- `re.match` of `^---\s*\n(.*?)\n---\s*\n` (DOTALL) on `s`: returns
`(group(1), remainder after the match)` when the pattern matches at the
start of `s`.  The opening `\s*\n` backtracks from longest to shortest. -/
def matchFrontmatter (s : Str) : Option (Str × Str) :=
  if startsWithL ('-' :: '-' :: '-' :: []) s then
    (wsNlCands (s.drop 3)).findSome? (fun n => findFmClose ((s.drop 3).drop n))
  else none

/-- `strip_frontmatter`: `re.sub` of `^---\s*\n.*?\n---\s*\n` (DOTALL) with an
empty replacement — the `^` anchors the sole possible match at position 0. -/
def strip_frontmatter (s : Str) : Str :=
  match matchFrontmatter s with
  | some p => p.2
  | none => s

/-! ## Title search

Embeds `re.search`, MULTILINE, of the pattern: line start, `title:`, greedy
whitespace, an optional quote (double or single), a nonempty greedy run of
non-quote non-newline characters (captured), an optional quote, greedy
whitespace, line end.
-/

/-- Candidate lengths for a greedy `\s*` (longest first). -/
def wsCands (l : Str) : List Nat :=
  (List.range (spaceRun l + 1)).reverse

/-- Candidate lengths for the greedy value run (non-quote, non-newline
characters; longest first, at least 1). -/
def valueRun : Str → Nat
  | [] => 0
  | c :: r => if c = '"' || c = '\'' || c = '\n' then 0 else valueRun r + 1

def valueCands (l : Str) : List Nat :=
  (List.range (valueRun l)).reverse.map (· + 1)

/-- Candidate consumed lengths for a greedy optional quote. -/
def quoteOpts : Str → List Nat
  | [] => [0]
  | c :: _ => if c = '"' || c = '\'' then [1, 0] else [0]

/-- `$` in MULTILINE mode: end of string or just before a newline. -/
def atLineEnd : Str → Bool
  | [] => true
  | c :: _ => c = '\n'

/-- Try the title pattern with the cursor at a line start; returns the
captured value group of the first (regex backtracking order)
successful parse. -/
def tryTitleAt (l : Str) : Option Str :=
  if startsWithL ('t' :: 'i' :: 't' :: 'l' :: 'e' :: ':' :: []) l then
    let l0 := l.drop 6
    (wsCands l0).findSome? (fun w =>
      let l1 := l0.drop w
      (quoteOpts l1).findSome? (fun q =>
        let l2 := l1.drop q
        (valueCands l2).findSome? (fun v =>
          let l3 := l2.drop v
          (quoteOpts l3).findSome? (fun q2 =>
            let l4 := l3.drop q2
            (wsCands l4).findSome? (fun w2 =>
              if atLineEnd (l4.drop w2) then some (l2.take v) else none)))))
  else none

/-- Positions after each newline (the non-initial `^` anchors of MULTILINE),
tried left to right. -/
def searchTitleTail : Str → Option Str
  | [] => none
  | c :: r => if c = '\n' then tryTitleAt r <|> searchTitleTail r else searchTitleTail r

/-- `re.search` of the title pattern over the frontmatter text. -/
def searchTitle (fm : Str) : Option Str :=
  tryTitleAt fm <|> searchTitleTail fm

/-! ## Filename fallback title -/

/-- Final path component (POSIX `Path.name`): the last `/`-separated
component, ignoring empty components and `.` as `pathlib` does. -/
def basename (p : Str) : Str :=
  (((p.splitOn '/').filter (fun c => !(decide (c = []) || decide (c = ['.'])))).getLast?).getD []

/-- Index of the last `.` in a name, if any. -/
def rfindDot (l : Str) : Option Nat :=
  (List.range l.length).reverse.find? (fun i => decide (l.get? i = some '.'))

/-- `pathlib.PurePath.stem`: the name with its last suffix removed; a dot at
position 0 or at the very end does not start a suffix. -/
def pyStem (name : Str) : Str :=
  match rfindDot name with
  | some i => if 0 < i && i < name.length - 1 then name.take i else name
  | none => name

/-- Python `str.title()` restricted to ASCII case mapping: uppercase a letter
not preceded by a letter, lowercase a letter preceded by one. -/
def pyTitleGo (prevCased : Bool) : Str → Str
  | [] => []
  | c :: r =>
    (if isAlphaAZ c then (if prevCased then c.toLower else c.toUpper) else c) ::
      pyTitleGo (isAlphaAZ c) r

def pyTitle (l : Str) : Str := pyTitleGo false l

/-- Fallback title: `filepath.stem`, hyphens and underscores replaced by
spaces, then Python `str.title`. -/
def fallbackTitle (name : Str) : Str :=
  pyTitle (replaceChar '_' ' ' (replaceChar '-' ' ' (pyStem name)))

/-- `extract_frontmatter_title(content, filepath)`; `path` is the file path,
whose final component supplies the fallback stem. -/
def extract_frontmatter_title (content : Str) (path : Str) : Str :=
  match matchFrontmatter content with
  | some p =>
    match searchTitle p.1 with
    | some v => listStrip v
    | none => fallbackTitle (basename path)
  | none => fallbackTitle (basename path)

/-! ## Component tag stripping

Embeds the four deleting `re.sub` passes of
`strip_mdx_components`.  Each matcher reports the length of the (unique,
after greedy/backtracking resolution) match beginning at the cursor.
-/

/-- Text up to (excluding) the first `>`, if one occurs: the maximal `[^>]*`
that a following literal `>` can close. -/
def segToGt : Str → Option Str
  | [] => none
  | c :: r => if c = '>' then some [] else (segToGt r).map (c :: ·)

/-- Matcher for `<[A-Z][a-zA-Z]*\s+[^>]*/>`: after `<Name` there must be at
least one whitespace character, and the run up to the next `>` must end in
`/`. -/
def mSelfClose (l : Str) : Option Nat :=
  match l with
  | '<' :: c :: r =>
    if isUpperAZ c then
      let a := alphaRun r
      let r2 := r.drop a
      match segToGt r2 with
      | some seg =>
        if (seg.head?.elim false pyIsSpace) && seg.getLast? = some '/' then
          some (2 + a + seg.length + 1)
        else none
      | none => none
    else none
  | _ => none

/-- Matcher for `<[A-Z][a-zA-Z]*(?:\s+[^>]*)?>`: either `>` immediately after
the name, or whitespace and then anything up to the next `>`. -/
def mOpenTag (l : Str) : Option Nat :=
  match l with
  | '<' :: c :: r =>
    if isUpperAZ c then
      let a := alphaRun r
      let r2 := r.drop a
      match r2 with
      | '>' :: _ => some (2 + a + 1)
      | d :: _ =>
        if pyIsSpace d then
          match segToGt r2 with
          | some seg => some (2 + a + seg.length + 1)
          | none => none
        else none
      | [] => none
    else none
  | _ => none

/-- Matcher for `</[A-Z][a-zA-Z]*>`. -/
def mCloseTag (l : Str) : Option Nat :=
  match l with
  | '<' :: '/' :: c :: r =>
    if isUpperAZ c then
      let a := alphaRun r
      match r.drop a with
      | '>' :: _ => some (3 + a + 1)
      | _ => none
    else none
  | _ => none

/-- Matcher for `<[A-Z][a-zA-Z]*\s*/>`. -/
def mResidual (l : Str) : Option Nat :=
  match l with
  | '<' :: c :: r =>
    if isUpperAZ c then
      let a := alphaRun r
      let w := spaceRun (r.drop a)
      match (r.drop a).drop w with
      | '/' :: '>' :: _ => some (2 + a + w + 2)
      | _ => none
    else none
  | _ => none

/-- A deleting `re.sub`: scan left to right, delete each leftmost
match, continue after it.  Fuelled for structural recursion; fuel
`s.length + 1` always suffices since every step consumes a character. -/
def subAllGo (m : Str → Option Nat) : Nat → Str → Str
  | 0, l => l
  | _ + 1, [] => []
  | fuel + 1, c :: r =>
    match m (c :: r) with
    | some n => subAllGo m fuel ((c :: r).drop n)
    | none => c :: subAllGo m fuel r

def subAll (m : Str → Option Nat) (l : Str) : Str :=
  subAllGo m (l.length + 1) l

/-- `strip_mdx_components`: the four substitution passes in source order. -/
def strip_mdx_components (content : Str) : Str :=
  subAll mResidual (subAll mCloseTag (subAll mOpenTag (subAll mSelfClose content)))

/-! ## Whitespace cleaning -/

def fence : Str := '\x60' :: '\x60' :: '\x60' :: []

/-- Find the closing ``` of `` ```[\s\S]*?``` `` (lazy: earliest).  Returns
the inner text and the remainder after the closing fence. -/
def fenceClose : Str → Option (Str × Str)
  | [] => none
  | c :: r =>
    if startsWithL fence (c :: r) then some ([], (c :: r).drop 3)
    else (fenceClose r).map (fun p => (c :: p.1, p.2))

def placeholder (i : Nat) : Str :=
  ("__CODE_BLOCK_".data) ++ (Nat.repr i).data ++ ("__".data)

/-- The code-block saving pass of `clean_whitespace`: replace each fenced
block with `__CODE_BLOCK_i__` and collect the blocks.  Fuelled; fuel
`s.length + 1` suffices. -/
def extractBlocksGo : Nat → Nat → Str → Str × List Str
  | 0, _, l => (l, [])
  | _ + 1, _, [] => ([], [])
  | fuel + 1, i, c :: r =>
    if startsWithL fence (c :: r) then
      match fenceClose ((c :: r).drop 3) with
      | some p =>
        let rec1 := extractBlocksGo fuel (i + 1) p.2
        (placeholder i ++ rec1.1, (fence ++ p.1 ++ fence) :: rec1.2)
      | none =>
        let rec1 := extractBlocksGo fuel i r
        (c :: rec1.1, rec1.2)
    else
      let rec1 := extractBlocksGo fuel i r
      (c :: rec1.1, rec1.2)

def extractBlocks (l : Str) : Str × List Str :=
  extractBlocksGo (l.length + 1) 0 l

/-- `re.sub` replacing each run of 3 or more newlines by exactly two,
via a pending-newline counter. -/
def nlOut (k : Nat) : Str := List.replicate (if 3 ≤ k then 2 else k) '\n'

def collapseGo (k : Nat) : Str → Str
  | [] => nlOut k
  | c :: r => if c = '\n' then collapseGo (k + 1) r else nlOut k ++ c :: collapseGo 0 r

def collapseNewlines (l : Str) : Str := collapseGo 0 l

/-- `re.sub`, MULTILINE, deleting horizontal whitespace at line ends: drop
runs of spaces and
tabs that sit immediately before a newline or at the end of the string. -/
def stripTrailGo (pending : Str) : Str → Str
  | [] => []
  | c :: r =>
    if c = ' ' || c = '\t' then stripTrailGo (c :: pending) r
    else if c = '\n' then '\n' :: stripTrailGo [] r
    else pending.reverse ++ c :: stripTrailGo [] r

def stripTrailing (l : Str) : Str := stripTrailGo [] l

/-- Python `str.replace(pat, repl)` (all non-overlapping occurrences, left to
right); `pat` nonempty in every use here.  Fuelled; `s.length + 1` suffices. -/
def pyReplaceGo (pat repl : Str) : Nat → Str → Str
  | 0, l => l
  | _ + 1, [] => []
  | fuel + 1, c :: r =>
    if startsWithL pat (c :: r) then repl ++ pyReplaceGo pat repl fuel ((c :: r).drop pat.length)
    else c :: pyReplaceGo pat repl fuel r

def pyReplace (pat repl l : Str) : Str := pyReplaceGo pat repl (l.length + 1) l

/-- The restore loop: `content.replace` of each placeholder by its block, for
each saved block in order. -/
def restoreBlocksGo : Nat → List Str → Str → Str
  | _, [], acc => acc
  | i, b :: bs, acc => restoreBlocksGo (i + 1) bs (pyReplace (placeholder i) b acc)

def restoreBlocks (blocks : List Str) (l : Str) : Str := restoreBlocksGo 0 blocks l

/-- `clean_whitespace`: save code blocks, collapse blank-line runs, strip
trailing horizontal whitespace, restore the blocks, strip the ends. -/
def clean_whitespace (content : Str) : Str :=
  let s := extractBlocks content
  listStrip (restoreBlocks s.2 (stripTrailing (collapseNewlines s.1)))

/-! ## Per-file processing and assembly -/

/-- A discovered `.mdx` file: absolute path, path relative to the docs dir,
and its contents (`none` models a read that raises, e.g. an unreadable or
mis-encoded file). -/
structure SrcFile where
  abs : Str
  rel : Str
  content : Option Str
deriving DecidableEq

structure Doc where
  title : Str
  source : Str
  body : Str
deriving DecidableEq

/-- The cleaned body of `process_mdx_file`. -/
def process_body (content : Str) : Str :=
  clean_whitespace (strip_mdx_components (strip_frontmatter content))

def mkDoc (f : SrcFile) (c : Str) : Doc :=
  { title := extract_frontmatter_title c f.abs
    source := f.rel
    body := process_body c }

/-- `should_include_file`: exclude relative paths under `snippets/` (either
separator convention). -/
def should_include_file (rel : Str) : Bool :=
  !(startsWithL ("snippets/".data) rel || startsWithL ("snippets\\".data) rel)

/-- Lexicographic `≤` on strings by code point — the order `sorted()` uses
on the glob results. -/
def strLeB : Str → Str → Bool
  | [], _ => true
  | _ :: _, [] => false
  | a :: as, b :: bs => if a = b then strLeB as bs else decide (a < b)

def insertFile (f : SrcFile) : List SrcFile → List SrcFile
  | [] => [f]
  | g :: r => if strLeB f.abs g.abs then f :: g :: r else g :: insertFile f r

/-- `sorted(glob.glob(...))` modelled as an insertion sort on the absolute
paths. -/
def sortFiles : List SrcFile → List SrcFile
  | [] => []
  | f :: r => insertFile f (sortFiles r)

/-- Result of the `compile_docs` loop. -/
structure RunResult where
  docs : List Doc
  processed : Nat
  skipped : Nat
  failed : List Str
deriving DecidableEq

/-- The per-file loop of `compile_docs` over the (already sorted) file list:
skip excluded files, turn readable files into docs, record failing paths. -/
def compileGo : List SrcFile → RunResult
  | [] => ⟨[], 0, 0, []⟩
  | f :: rest =>
    let r := compileGo rest
    if should_include_file f.rel then
      match f.content with
      | some c => ⟨mkDoc f c :: r.docs, r.processed + 1, r.skipped, r.failed⟩
      | none => ⟨r.docs, r.processed, r.skipped, f.abs :: r.failed⟩
    else ⟨r.docs, r.processed, r.skipped + 1, r.failed⟩

def compile_docs (files : List SrcFile) : RunResult :=
  compileGo (sortFiles files)

def sep80 : Str := List.replicate 80 '='

/-- The f-string section template of `compile_docs`. -/
def renderSection (d : Doc) : Str :=
  sep80 ++ "\nSECTION: ".data ++ d.title ++ "\nSOURCE: ".data ++ d.source ++
    "\n".data ++ sep80 ++ "\n\n".data ++ d.body ++ "\n".data

/-- The document header with the processed-page count. -/
def headerText (n : Nat) : Str :=
  "ChatAds Documentation\nGenerated for Support Chatbot Context\n".data ++ sep80 ++
    "\n\nThis file contains the complete ChatAds documentation compiled from ".data ++
    (Nat.repr n).data ++
    " pages.\nUse this as context when answering user questions about ChatAds.\n\n".data

/-- The full output string: header plus sections joined by a blank line. -/
def compileOutput (files : List SrcFile) : Str :=
  let r := compile_docs files
  headerText r.processed ++ List.intercalate ("\n\n".data) (r.docs.map renderSection)

/-- `main`, with the outcome of the final file write supplied as a boolean
(the only fallible step the script handles): `sys.exit(1)` exactly on a
write error, otherwise a normal (zero) exit.  Returns the text that was
composed for writing together with the process exit code. -/
def mainRun (files : List SrcFile) (writeOk : Bool) : Str × Nat :=
  (compileOutput files, if writeOk then 0 else 1)

/-! ## Derived predicates used by the verification -/

/-- No position of `l` begins a match of `m`. -/
def noMatch (m : Str → Option Nat) : Str → Bool
  | [] => (m []).isNone
  | c :: r => (m (c :: r)).isNone && noMatch m r

/-- No position of `l` begins a match of any of the four component-tag
patterns. -/
def noTagMatches (l : Str) : Bool :=
  noMatch mSelfClose l && noMatch mOpenTag l && noMatch mCloseTag l && noMatch mResidual l

/-- Does `l` start with two newline characters? -/
def startsNN : Str → Bool
  | a :: b :: _ => decide (a = '\n') && decide (b = '\n')
  | _ => false

/-- Does `l` contain three consecutive newline characters anywhere? -/
def hasTriple : Str → Bool
  | [] => false
  | c :: r => (decide (c = '\n') && startsNN r) || hasTriple r

/-- The title the frontmatter yields, when both the frontmatter block and a
title line inside it are found. -/
def fmTitle (content : Str) : Option Str :=
  (matchFrontmatter content).bind (fun p => searchTitle p.1)

/-- A file the `compile_docs` loop turns into a section: included and
readable. -/
def okFile (f : SrcFile) : Bool :=
  should_include_file f.rel && f.content.isSome

/-- The files that produce sections, in emission order. -/
def selFiles (files : List SrcFile) : List SrcFile :=
  (sortFiles files).filter okFile

/-- The ordering the assembly step follows: nondecreasing absolute paths. -/
def fileLe (a b : SrcFile) : Prop := strLeB a.abs b.abs = true

/-! # Theorems -/

/-! ## Generic substitution lemmas -/

theorem subAllGo_of_noMatch (m : Str → Option Nat) :
    ∀ (fuel : Nat) (l : Str), noMatch m l = true → subAllGo m fuel l = l := by
  intro fuel
  induction fuel with
  | zero => intro l _; rfl
  | succ n ih =>
    intro l h
    cases l with
    | nil => rfl
    | cons c r =>
      rw [noMatch, Bool.and_eq_true] at h
      rw [Option.isNone_iff_eq_none] at h
      rw [subAllGo, h.1]
      rw [ih r h.2]

theorem subAll_of_noMatch (m : Str → Option Nat) (l : Str) (h : noMatch m l = true) :
    subAll m l = l :=
  subAllGo_of_noMatch m _ l h

/-! ## Newline-collapse lemmas -/

theorem startsNN_cons_ne {c : Char} (t : Str) (hc : c ≠ '\n') :
    startsNN (c :: t) = false := by
  cases t <;> simp [startsNN, hc]

theorem hasTriple_cons_ne {c : Char} (t : Str) (hc : c ≠ '\n') :
    hasTriple (c :: t) = hasTriple t := by
  simp [hasTriple, hc]

theorem hasTriple_nl_cons_ne {c : Char} (t : Str) (hc : c ≠ '\n') :
    hasTriple ('\n' :: c :: t) = hasTriple (c :: t) := by
  rw [hasTriple]
  rw [startsNN_cons_ne t hc]
  simp

theorem hasTriple_nlOut_cons {k : Nat} {c : Char} (t : Str) (hc : c ≠ '\n') :
    hasTriple (nlOut k ++ c :: t) = hasTriple (c :: t) := by
  have hsplit : nlOut k = [] ∨ nlOut k = ['\n'] ∨ nlOut k = ['\n', '\n'] := by
    unfold nlOut
    by_cases h3 : 3 ≤ k
    · right; right; rw [if_pos h3]; rfl
    · have : k = 0 ∨ k = 1 ∨ k = 2 := by omega
      rcases this with h | h | h <;> subst h <;> simp
  rcases hsplit with h | h | h <;> rw [h]
  · simp
  · show hasTriple ('\n' :: c :: t) = hasTriple (c :: t)
    exact hasTriple_nl_cons_ne t hc
  · show hasTriple ('\n' :: '\n' :: c :: t) = hasTriple (c :: t)
    rw [hasTriple]
    rw [show startsNN ('\n' :: c :: t) = false by simp [startsNN, hc]]
    simp only [Bool.and_false, Bool.false_or]
    exact hasTriple_nl_cons_ne t hc

theorem hasTriple_nlOut (k : Nat) : hasTriple (nlOut k) = false := by
  unfold nlOut
  by_cases h3 : 3 ≤ k
  · rw [if_pos h3]; rfl
  · have : k = 0 ∨ k = 1 ∨ k = 2 := by omega
    rcases this with h | h | h <;> subst h <;> rfl

theorem collapseGo_hasTriple (l : Str) : ∀ k, hasTriple (collapseGo k l) = false := by
  induction l with
  | nil => intro k; rw [collapseGo]; exact hasTriple_nlOut k
  | cons c r ih =>
    intro k
    by_cases hc : c = '\n'
    · subst hc; rw [collapseGo, if_pos rfl]; exact ih (k + 1)
    · rw [collapseGo, if_neg hc]
      rw [hasTriple_nlOut_cons _ hc, hasTriple_cons_ne _ hc]
      exact ih 0

/-! ## Substring lemmas -/

theorem startsWithL_append_self (p r : Str) : startsWithL p (p ++ r) = true := by
  induction p with
  | nil => rfl
  | cons c cs ih => simp [startsWithL, ih]

theorem containsL_of_startsWithL {pat l : Str} (h : startsWithL pat l = true) :
    containsL pat l = true := by
  cases l with
  | nil => rw [containsL]; exact h
  | cons c r => rw [containsL, h]; rfl

theorem containsL_append_right {pat t : Str} (s : Str) (h : containsL pat t = true) :
    containsL pat (s ++ t) = true := by
  induction s with
  | nil => exact h
  | cons c cs ih => rw [List.cons_append, containsL, ih]; simp

theorem containsL_middle (pat s t : Str) : containsL pat (s ++ (pat ++ t)) = true :=
  containsL_append_right s (containsL_of_startsWithL (startsWithL_append_self pat t))

/-! ## Claim C2 -/

set_option maxRecDepth 10000 in
/-- Claim C2, counterexample: with two ordinary one-line files (and no fenced
code block anywhere, so every position is outside a code block), the final
assembled output contains three consecutive newlines — the section template
ends each section with a newline and sections are joined by a blank line. -/
theorem c2_counterexample :
    containsL ("\n\n\n".data)
      (compileOutput [⟨"/docs/a.mdx".data, "a.mdx".data, some ("Hello".data)⟩,
        ⟨"/docs/b.mdx".data, "b.mdx".data, some ("Hi".data)⟩]) = true ∧
    containsL fence
      (compileOutput [⟨"/docs/a.mdx".data, "a.mdx".data, some ("Hello".data)⟩,
        ⟨"/docs/b.mdx".data, "b.mdx".data, some ("Hi".data)⟩]) = false := by
  constructor <;> decide

/-- Claim C2 (amended): the blank-line collapsing step itself never leaves
three consecutive newlines in its output; but the final assembled output is
not covered by the invariant — between any two adjacent rendered sections
there are exactly three consecutive newlines. -/
theorem c2_no_triple_after_collapse :
    (∀ s : Str, hasTriple (collapseNewlines s) = false) ∧
    (∀ a b : Doc,
      containsL ("\n\n\n".data) (renderSection a ++ ("\n\n".data) ++ renderSection b) = true) := by
  constructor
  · intro s; exact collapseGo_hasTriple s 0
  · intro a b
    have h : renderSection a ++ ("\n\n".data) ++ renderSection b =
        (sep80 ++ "\nSECTION: ".data ++ a.title ++ "\nSOURCE: ".data ++ a.source ++
          "\n".data ++ sep80 ++ "\n\n".data ++ a.body) ++
        (("\n\n\n".data) ++ renderSection b) := by
      simp [renderSection, List.append_assoc]
    rw [h]
    exact containsL_middle _ _ _

/-! ## Claim C3 -/

/-- Claim C3, counterexample: component-tag stripping is not idempotent.
Removing the inner tag of `<C<Warning>>` splices the surrounding text into
the new tag `<C>`, which a second pass removes. -/
theorem c3_counterexample :
    strip_mdx_components (strip_mdx_components ("<C<Warning>>".data)) ≠
      strip_mdx_components ("<C<Warning>>".data) := by
  decide

/-- Claim C3 (amended): component-tag stripping is idempotent on every text
whose stripped form contains no occurrence of any of the four tag patterns;
in general a first pass can splice surrounding text into a fresh tag that a
second pass removes. -/
theorem c3_strip_idempotent_tagfree (t : Str)
    (h : noTagMatches (strip_mdx_components t) = true) :
    strip_mdx_components (strip_mdx_components t) = strip_mdx_components t := by
  rw [noTagMatches] at h
  simp only [Bool.and_eq_true] at h
  obtain ⟨⟨⟨h1, h2⟩, h3⟩, h4⟩ := h
  show subAll mResidual (subAll mCloseTag (subAll mOpenTag
      (subAll mSelfClose (strip_mdx_components t)))) = strip_mdx_components t
  rw [subAll_of_noMatch _ _ h1, subAll_of_noMatch _ _ h2,
    subAll_of_noMatch _ _ h3, subAll_of_noMatch _ _ h4]

/-- Witness for C3: a realistic already-stripped text satisfies the
tag-free hypothesis, and re-stripping it is the identity. -/
theorem c3_witness :
    noTagMatches (strip_mdx_components
      ("<CardGroup>\n<Card title=\"a\">Hello</Card>\n</CardGroup>\n".data)) = true ∧
    strip_mdx_components (strip_mdx_components
      ("<CardGroup>\n<Card title=\"a\">Hello</Card>\n</CardGroup>\n".data)) =
      strip_mdx_components
        ("<CardGroup>\n<Card title=\"a\">Hello</Card>\n</CardGroup>\n".data) :=
  ⟨by decide, c3_strip_idempotent_tagfree _ (by decide)⟩

/-! ## Claim C6 -/

/-- Claim C6: when the content has no frontmatter block or the block has no
title line, the extracted title is derived from the final path component:
extension removed, hyphens and underscores replaced by spaces, words
title-cased.  (The derivation is a total function of the path.) -/
theorem c6_fallback_title (content path : Str) (h : fmTitle content = none) :
    extract_frontmatter_title content path =
      pyTitle (replaceChar '_' ' ' (replaceChar '-' ' ' (pyStem (basename path)))) := by
  rw [fmTitle] at h
  cases hm : matchFrontmatter content with
  | none => simp [extract_frontmatter_title, hm, fallbackTitle]
  | some p =>
    rw [hm, Option.some_bind] at h
    simp [extract_frontmatter_title, hm, h, fallbackTitle]

/-- Witness for C6: a headerless file named `getting-started.mdx` yields the
title `Getting Started`. -/
theorem c6_witness :
    fmTitle ("# Getting started\n\nBody text.\n".data) = none ∧
    extract_frontmatter_title ("# Getting started\n\nBody text.\n".data)
      ("/docs/getting-started.mdx".data) = "Getting Started".data :=
  ⟨by decide, (c6_fallback_title _ _ (by decide)).trans (by decide)⟩

/-! ## Order lemmas for the path sort -/

theorem strLeB_total : ∀ a b : Str, strLeB a b = true ∨ strLeB b a = true := by
  intro a
  induction a with
  | nil => intro b; left; rfl
  | cons c as ih =>
    intro b
    cases b with
    | nil => right; rfl
    | cons d bs =>
      by_cases hcd : c = d
      · subst hcd
        rcases ih bs with h | h
        · left; rw [strLeB, if_pos rfl]; exact h
        · right; rw [strLeB, if_pos rfl]; exact h
      · rcases lt_trichotomy c d with h | h | h
        · left; rw [strLeB, if_neg hcd]; exact decide_eq_true h
        · exact absurd h hcd
        · right; rw [strLeB, if_neg (Ne.symm hcd)]; exact decide_eq_true h

theorem strLeB_trans : ∀ a b c : Str, strLeB a b = true → strLeB b c = true →
    strLeB a c = true := by
  intro a
  induction a with
  | nil => intro b c _ _; rfl
  | cons x as ih =>
    intro b c hab hbc
    cases b with
    | nil => exact absurd hab (by simp [strLeB])
    | cons y bs =>
      cases c with
      | nil => exact absurd hbc (by simp [strLeB])
      | cons z cs =>
        by_cases hxy : x = y <;> by_cases hyz : y = z
        · subst hxy; subst hyz
          rw [strLeB, if_pos rfl] at hab hbc ⊢
          exact ih bs cs hab hbc
        · subst hxy
          rw [strLeB, if_neg hyz] at hbc ⊢
          exact hbc
        · subst hyz
          rw [strLeB, if_neg hxy] at hab ⊢
          exact hab
        · rw [strLeB, if_neg hxy] at hab
          rw [strLeB, if_neg hyz] at hbc
          have hlt : x < z := lt_trans (of_decide_eq_true hab) (of_decide_eq_true hbc)
          rw [strLeB, if_neg (ne_of_lt hlt)]
          exact decide_eq_true hlt

theorem mem_insertFile {x f : SrcFile} : ∀ l : List SrcFile,
    x ∈ insertFile f l ↔ x = f ∨ x ∈ l := by
  intro l
  induction l with
  | nil => simp [insertFile]
  | cons g r ih =>
    rw [insertFile]
    by_cases h : strLeB f.abs g.abs = true
    · rw [if_pos h]; simp
    · rw [if_neg h]
      simp only [List.mem_cons, ih]
      tauto

theorem insertFile_pairwise {f : SrcFile} : ∀ {l : List SrcFile},
    List.Pairwise fileLe l → List.Pairwise fileLe (insertFile f l) := by
  intro l
  induction l with
  | nil => intro _; exact List.pairwise_singleton fileLe f
  | cons g r ih =>
    intro h
    rw [List.pairwise_cons] at h
    rw [insertFile]
    by_cases hle : strLeB f.abs g.abs = true
    · rw [if_pos hle]
      rw [List.pairwise_cons]
      refine ⟨?_, List.pairwise_cons.mpr h⟩
      intro x hx
      rcases List.mem_cons.mp hx with rfl | hx
      · exact hle
      · exact strLeB_trans _ _ _ hle (h.1 x hx)
    · rw [if_neg hle]
      have hgf : fileLe g f := by
        rcases strLeB_total f.abs g.abs with h' | h'
        · exact absurd h' hle
        · exact h'
      rw [List.pairwise_cons]
      refine ⟨?_, ih h.2⟩
      intro x hx
      rcases (mem_insertFile r).mp hx with rfl | hx
      · exact hgf
      · exact h.1 x hx

theorem sortFiles_pairwise : ∀ l : List SrcFile, List.Pairwise fileLe (sortFiles l) := by
  intro l
  induction l with
  | nil => exact List.Pairwise.nil
  | cons f r ih => exact insertFile_pairwise ih

theorem insertFile_perm (f : SrcFile) : ∀ l : List SrcFile,
    List.Perm (insertFile f l) (f :: l) := by
  intro l
  induction l with
  | nil => rfl
  | cons g r ih =>
    rw [insertFile]
    by_cases h : strLeB f.abs g.abs = true
    · rw [if_pos h]
    · rw [if_neg h]
      exact (ih.cons g).trans (List.Perm.swap f g r)

theorem sortFiles_perm : ∀ l : List SrcFile, List.Perm (sortFiles l) l := by
  intro l
  induction l with
  | nil => rfl
  | cons f r ih => exact (insertFile_perm f (sortFiles r)).trans (ih.cons f)

/-! ## Characterizations of the compile loop -/

theorem compileGo_docs : ∀ l : List SrcFile,
    (compileGo l).docs = (l.filter okFile).map (fun f => mkDoc f (f.content.getD [])) := by
  intro l
  induction l with
  | nil => rfl
  | cons f rest ih =>
    by_cases hinc : should_include_file f.rel = true
    · cases hc : f.content with
      | some c =>
        have hok : okFile f = true := by simp [okFile, hinc, hc]
        simp [compileGo, hinc, hc, List.filter_cons, hok, ih]
      | none =>
        have hok : okFile f = false := by simp [okFile, hc]
        simp [compileGo, hinc, hc, List.filter_cons, hok, ih]
    · have hok : okFile f = false := by simp [okFile, Bool.eq_false_iff.mpr hinc]
      simp [compileGo, hinc, List.filter_cons, hok, ih]

theorem compileGo_processed : ∀ l : List SrcFile,
    (compileGo l).processed = (l.filter okFile).length := by
  intro l
  induction l with
  | nil => rfl
  | cons f rest ih =>
    by_cases hinc : should_include_file f.rel = true
    · cases hc : f.content with
      | some c =>
        have hok : okFile f = true := by simp [okFile, hinc, hc]
        simp [compileGo, hinc, hc, List.filter_cons, hok, ih]
      | none =>
        have hok : okFile f = false := by simp [okFile, hc]
        simp [compileGo, hinc, hc, List.filter_cons, hok, ih]
    · have hok : okFile f = false := by simp [okFile, Bool.eq_false_iff.mpr hinc]
      simp [compileGo, hinc, List.filter_cons, hok, ih]

theorem compileGo_failed : ∀ l : List SrcFile,
    (compileGo l).failed =
      (l.filter (fun f => should_include_file f.rel && f.content.isNone)).map
        (fun f => f.abs) := by
  intro l
  induction l with
  | nil => rfl
  | cons f rest ih =>
    by_cases hinc : should_include_file f.rel = true
    · cases hc : f.content with
      | some c => simp [compileGo, hinc, hc, List.filter_cons, ih]
      | none => simp [compileGo, hinc, hc, List.filter_cons, ih]
    · simp [compileGo, hinc, List.filter_cons, Bool.eq_false_iff.mpr hinc, ih]

theorem length_filter_split {α : Type} (p : α → Bool) : ∀ l : List α,
    (l.filter p).length + (l.filter (fun x => !p x)).length = l.length := by
  intro l
  induction l with
  | nil => rfl
  | cons x r ih =>
    by_cases h : p x = true
    · rw [List.filter_cons, List.filter_cons, h]
      simp
      omega
    · have hf : p x = false := Bool.eq_false_iff.mpr h
      rw [List.filter_cons, List.filter_cons, hf]
      simp
      omega

/-- Every included, readable input file contributes a section whose SOURCE
line carries its relative path. -/
theorem mem_docs_of_included (files : List SrcFile) (f : SrcFile)
    (hf : f ∈ files) (hinc : should_include_file f.rel = true)
    (hs : f.content.isSome = true) :
    ∃ d ∈ (compile_docs files).docs, d.source = f.rel := by
  have hmem : f ∈ sortFiles files := ((sortFiles_perm files).mem_iff).mpr hf
  have hok : okFile f = true := by simp [okFile, hinc, hs]
  have hfil : f ∈ (sortFiles files).filter okFile := List.mem_filter.mpr ⟨hmem, hok⟩
  refine ⟨mkDoc f (f.content.getD []), ?_, rfl⟩
  rw [compile_docs, compileGo_docs]
  exact List.mem_map_of_mem _ hfil

/-! ## Claim C9 -/

/-- Claim C9: the sections of the compiled output are exactly the renderings
of the included, readable files taken in nondecreasing lexicographic order
of their absolute source paths. -/
theorem c9_sections_sorted (files : List SrcFile) :
    (compile_docs files).docs =
      (selFiles files).map (fun f => mkDoc f (f.content.getD [])) ∧
    List.Pairwise fileLe (selFiles files) := by
  constructor
  · rw [compile_docs, compileGo_docs]; rfl
  · exact (sortFiles_pairwise files).filter okFile

/-! ## Claim C8 -/

/-- Claim C8: a discovered file whose relative path starts with the
fragments directory name (under either separator convention) is excluded by
the inclusion predicate, and no section of the output carries its relative
path as SOURCE — regardless of the file contents. -/
theorem c8_fragments_never_sections (files : List SrcFile) (f : SrcFile)
    (_hmem : f ∈ files)
    (hfrag : startsWithL ("snippets/".data) f.rel = true ∨
      startsWithL ("snippets\\".data) f.rel = true) :
    should_include_file f.rel = false ∧
    ∀ d ∈ (compile_docs files).docs, d.source ≠ f.rel := by
  have hni : should_include_file f.rel = false := by
    rw [should_include_file]
    rcases hfrag with h | h <;> simp [h]
  refine ⟨hni, ?_⟩
  intro d hd heq
  rw [compile_docs, compileGo_docs] at hd
  obtain ⟨g, hg, hdg⟩ := List.mem_map.mp hd
  have hok : okFile g = true := (List.mem_filter.mp hg).2
  have hginc : should_include_file g.rel = true := by
    rw [okFile, Bool.and_eq_true] at hok
    exact hok.1
  have hsrc : d.source = g.rel := by rw [← hdg]; rfl
  rw [hsrc] at heq
  rw [heq] at hginc
  rw [hginc] at hni
  simp at hni

/-- Witness for C8: a run with a `snippets/` file and an ordinary file. -/
theorem c8_witness :
    ((⟨"/docs/snippets/frag.mdx".data, "snippets/frag.mdx".data,
        some ("Fragment body".data)⟩ : SrcFile) ∈
      [(⟨"/docs/snippets/frag.mdx".data, "snippets/frag.mdx".data,
          some ("Fragment body".data)⟩ : SrcFile),
        ⟨"/docs/b.mdx".data, "b.mdx".data, some ("Hi".data)⟩] ∧
      startsWithL ("snippets/".data) ("snippets/frag.mdx".data) = true) ∧
    (should_include_file ("snippets/frag.mdx".data) = false ∧
      ∀ d ∈ (compile_docs
        [(⟨"/docs/snippets/frag.mdx".data, "snippets/frag.mdx".data,
            some ("Fragment body".data)⟩ : SrcFile),
          ⟨"/docs/b.mdx".data, "b.mdx".data, some ("Hi".data)⟩]).docs,
        d.source ≠ "snippets/frag.mdx".data) :=
  ⟨⟨by decide, by decide⟩,
    c8_fragments_never_sections
      [(⟨"/docs/snippets/frag.mdx".data, "snippets/frag.mdx".data,
          some ("Fragment body".data)⟩ : SrcFile),
        ⟨"/docs/b.mdx".data, "b.mdx".data, some ("Hi".data)⟩]
      ⟨"/docs/snippets/frag.mdx".data, "snippets/frag.mdx".data,
        some ("Fragment body".data)⟩
      (by decide) (Or.inl (by decide))⟩

/-! ## Claim C4 -/

/-- Claim C4: among ten non-fragment files of which exactly one fails to
read, the other nine all appear as sections, the failed path is the sole
entry of the failure list, and the processed count (the number the header
reports) is nine. -/
theorem c4_one_failure_isolated (files : List SrcFile) (bad : SrcFile)
    (hlen : files.length = 10)
    (hinc : ∀ g ∈ files, should_include_file g.rel = true)
    (hfail : files.filter (fun g => g.content.isNone) = [bad]) :
    (compile_docs files).processed = 9 ∧
    (compile_docs files).docs.length = 9 ∧
    (compile_docs files).failed = [bad.abs] ∧
    ∀ g ∈ files, g.content.isSome = true →
      ∃ d ∈ (compile_docs files).docs, d.source = g.rel := by
  have hperm : List.Perm (sortFiles files) files := sortFiles_perm files
  have hsome : ∀ o : Option Str, o.isSome = !o.isNone := by
    intro o; cases o <;> rfl
  have hcong : ∀ g ∈ sortFiles files, okFile g = !g.content.isNone := by
    intro g hg
    rw [okFile, hinc g (hperm.mem_iff.mp hg), Bool.true_and]
    exact hsome g.content
  have hfilter_ok :
      (sortFiles files).filter okFile =
        (sortFiles files).filter (fun g => !g.content.isNone) := by
    exact List.filter_congr hcong
  have hlen_ok : ((sortFiles files).filter okFile).length = 9 := by
    rw [hfilter_ok]
    have h1 : ((sortFiles files).filter (fun g => !g.content.isNone)).length =
        (files.filter (fun g => !g.content.isNone)).length :=
      (hperm.filter _).length_eq
    have h2 := length_filter_split (fun g : SrcFile => g.content.isNone) files
    rw [hfail] at h2
    have h3 : ([bad] : List SrcFile).length = 1 := rfl
    rw [h1]
    omega
  have hproc : (compile_docs files).processed = 9 := by
    rw [compile_docs, compileGo_processed]; exact hlen_ok
  refine ⟨hproc, ?_, ?_, ?_⟩
  · rw [compile_docs, compileGo_docs, List.length_map]; exact hlen_ok
  · rw [compile_docs, compileGo_failed]
    have hcong2 : ∀ g ∈ sortFiles files,
        (should_include_file g.rel && g.content.isNone) = g.content.isNone := by
      intro g hg
      rw [hinc g (hperm.mem_iff.mp hg), Bool.true_and]
    rw [List.filter_congr hcong2]
    have hpf : List.Perm ((sortFiles files).filter (fun g => g.content.isNone))
        (files.filter (fun g => g.content.isNone)) := hperm.filter _
    rw [hfail] at hpf
    rw [List.perm_singleton.mp hpf]
    rfl
  · intro g hg hgs
    exact mem_docs_of_included files g hg (hinc g hg) hgs

/-- Witness for C4: ten concrete files, exactly one of which (index 3) fails
to read. -/
theorem c4_witness :
    (([⟨"/docs/f0.mdx".data, "f0.mdx".data, some ("A0".data)⟩,
        ⟨"/docs/f1.mdx".data, "f1.mdx".data, some ("A1".data)⟩,
        ⟨"/docs/f2.mdx".data, "f2.mdx".data, some ("A2".data)⟩,
        ⟨"/docs/f3.mdx".data, "f3.mdx".data, none⟩,
        ⟨"/docs/f4.mdx".data, "f4.mdx".data, some ("A4".data)⟩,
        ⟨"/docs/f5.mdx".data, "f5.mdx".data, some ("A5".data)⟩,
        ⟨"/docs/f6.mdx".data, "f6.mdx".data, some ("A6".data)⟩,
        ⟨"/docs/f7.mdx".data, "f7.mdx".data, some ("A7".data)⟩,
        ⟨"/docs/f8.mdx".data, "f8.mdx".data, some ("A8".data)⟩,
        ⟨"/docs/f9.mdx".data, "f9.mdx".data, some ("A9".data)⟩] :
        List SrcFile).length = 10) ∧
    (compile_docs
      [⟨"/docs/f0.mdx".data, "f0.mdx".data, some ("A0".data)⟩,
        ⟨"/docs/f1.mdx".data, "f1.mdx".data, some ("A1".data)⟩,
        ⟨"/docs/f2.mdx".data, "f2.mdx".data, some ("A2".data)⟩,
        ⟨"/docs/f3.mdx".data, "f3.mdx".data, none⟩,
        ⟨"/docs/f4.mdx".data, "f4.mdx".data, some ("A4".data)⟩,
        ⟨"/docs/f5.mdx".data, "f5.mdx".data, some ("A5".data)⟩,
        ⟨"/docs/f6.mdx".data, "f6.mdx".data, some ("A6".data)⟩,
        ⟨"/docs/f7.mdx".data, "f7.mdx".data, some ("A7".data)⟩,
        ⟨"/docs/f8.mdx".data, "f8.mdx".data, some ("A8".data)⟩,
        ⟨"/docs/f9.mdx".data, "f9.mdx".data, some ("A9".data)⟩]).processed = 9 ∧
    (compile_docs
      [⟨"/docs/f0.mdx".data, "f0.mdx".data, some ("A0".data)⟩,
        ⟨"/docs/f1.mdx".data, "f1.mdx".data, some ("A1".data)⟩,
        ⟨"/docs/f2.mdx".data, "f2.mdx".data, some ("A2".data)⟩,
        ⟨"/docs/f3.mdx".data, "f3.mdx".data, none⟩,
        ⟨"/docs/f4.mdx".data, "f4.mdx".data, some ("A4".data)⟩,
        ⟨"/docs/f5.mdx".data, "f5.mdx".data, some ("A5".data)⟩,
        ⟨"/docs/f6.mdx".data, "f6.mdx".data, some ("A6".data)⟩,
        ⟨"/docs/f7.mdx".data, "f7.mdx".data, some ("A7".data)⟩,
        ⟨"/docs/f8.mdx".data, "f8.mdx".data, some ("A8".data)⟩,
        ⟨"/docs/f9.mdx".data, "f9.mdx".data, some ("A9".data)⟩]).failed =
      ["/docs/f3.mdx".data] := by
  refine ⟨by decide, ?_, ?_⟩
  · exact (c4_one_failure_isolated _ ⟨"/docs/f3.mdx".data, "f3.mdx".data, none⟩
      (by decide) (by decide) (by decide)).1
  · exact (c4_one_failure_isolated _ ⟨"/docs/f3.mdx".data, "f3.mdx".data, none⟩
      (by decide) (by decide) (by decide)).2.2.1

/-! ## Claim C5 -/

/-- Claim C5: the embedded `main` exits nonzero exactly when the final write
fails; per-file failures (a nonempty failure list) leave a successful run at
exit code zero. -/
theorem c5_exit_status (files : List SrcFile) (writeOk : Bool) :
    ((mainRun files writeOk).2 = 0 ↔ writeOk = true) ∧
    ((compile_docs files).failed ≠ [] → writeOk = true →
      (mainRun files writeOk).2 = 0) := by
  rw [mainRun]
  cases writeOk <;> simp

/-- Witness for C5: a run with one unreadable file and a successful write
exits with code zero. -/
theorem c5_witness :
    (compile_docs [(⟨"/docs/bad.mdx".data, "bad.mdx".data, none⟩ : SrcFile)]).failed ≠ [] ∧
    (mainRun [(⟨"/docs/bad.mdx".data, "bad.mdx".data, none⟩ : SrcFile)] true).2 = 0 :=
  ⟨by decide,
    (c5_exit_status [(⟨"/docs/bad.mdx".data, "bad.mdx".data, none⟩ : SrcFile)] true).2
      (by decide) rfl⟩

/-! ## Claim C10 -/

/-- Claim C10: the fragment exclusion fires only on paths that begin with
the `snippets` directory prefix proper; relative paths that merely share the
string prefix, such as `snippets-extra/page.mdx` or a top-level
`snippets.mdx`, are included, and any such included readable file appears as
a normal section. -/
theorem c10_exclusion_component_exact :
    should_include_file ("snippets-extra/page.mdx".data) = true ∧
    should_include_file ("snippets.mdx".data) = true ∧
    (∀ rel : Str, should_include_file rel = false →
      startsWithL ("snippets/".data) rel = true ∨
        startsWithL ("snippets\\".data) rel = true) ∧
    (∀ (files : List SrcFile) (f : SrcFile), f ∈ files →
      should_include_file f.rel = true → f.content.isSome = true →
      ∃ d ∈ (compile_docs files).docs, d.source = f.rel) := by
  refine ⟨by decide, by decide, ?_, ?_⟩
  · intro rel h
    rw [should_include_file] at h
    rcases Bool.or_eq_true _ _ |>.mp (by
      have := congrArg (fun b => !b) h
      simpa using this) with h1 | h1
    · exact Or.inl h1
    · exact Or.inr h1
  · intro files f hf hinc hs
    exact mem_docs_of_included files f hf hinc hs

/-- Witness for C10: a run containing `snippets-extra/page.mdx` and
`snippets.mdx` gives both files sections. -/
theorem c10_witness :
    ((⟨"/docs/snippets.mdx".data, "snippets.mdx".data, some ("Hello".data)⟩ : SrcFile) ∈
      [(⟨"/docs/snippets-extra/page.mdx".data, "snippets-extra/page.mdx".data,
          some ("Page".data)⟩ : SrcFile),
        ⟨"/docs/snippets.mdx".data, "snippets.mdx".data, some ("Hello".data)⟩] ∧
      should_include_file ("snippets.mdx".data) = true) ∧
    (∃ d ∈ (compile_docs
      [(⟨"/docs/snippets-extra/page.mdx".data, "snippets-extra/page.mdx".data,
          some ("Page".data)⟩ : SrcFile),
        ⟨"/docs/snippets.mdx".data, "snippets.mdx".data, some ("Hello".data)⟩]).docs,
      d.source = "snippets.mdx".data) :=
  ⟨⟨by decide, by decide⟩,
    c10_exclusion_component_exact.2.2.2
      [(⟨"/docs/snippets-extra/page.mdx".data, "snippets-extra/page.mdx".data,
          some ("Page".data)⟩ : SrcFile),
        ⟨"/docs/snippets.mdx".data, "snippets.mdx".data, some ("Hello".data)⟩]
      ⟨"/docs/snippets.mdx".data, "snippets.mdx".data, some ("Hello".data)⟩
      (by decide) (by decide) (by decide)⟩

/-! ## Claim C1 -/

set_option maxRecDepth 10000 in
/-- Claim C1, counterexample: a markup tag literal inside a fenced code
block does not survive into the cleaned body or the final output — the
component-tag stripping pass runs before code blocks are protected. -/
theorem c1_counterexample :
    containsL ("<Card>".data) ("```\n<Card>\n```\n".data) = true ∧
    containsL ("<Card>".data) (process_body ("```\n<Card>\n```\n".data)) = false ∧
    containsL ("<Card>".data)
      (compileOutput [⟨"/docs/c.mdx".data, "c.mdx".data,
        some ("```\n<Card>\n```\n".data)⟩]) = false := by
  refine ⟨by decide, by decide, by decide⟩

set_option maxRecDepth 10000 in
/-- Claim C1 (amended): the whitespace-normalization pass alone does keep a
fenced code block byte-for-byte (three-hyphen lines and a run of five blank
lines inside the block survive, while blank runs outside are collapsed),
but the earlier component-tag stripping pass edits inside code blocks and
removes tag literals such as `<Card>`. -/
theorem c1_block_preserved_by_clean_only :
    containsL ("```\n<Card>\n---\n\n\n\n\n\n---\n```".data)
      (clean_whitespace ("Intro\n\n\n\n\n```\n<Card>\n---\n\n\n\n\n\n---\n```\nOutro   \n".data)) =
      true ∧
    containsL ("<Card>".data)
      (strip_mdx_components
        ("Intro\n\n\n\n\n```\n<Card>\n---\n\n\n\n\n\n---\n```\nOutro   \n".data)) = false := by
  refine ⟨by decide, by decide⟩

/-! ## Claim C7 -/

theorem findFmClose_no_nl : ∀ xs l : Str, (∀ c ∈ xs, c ≠ '\n') →
    findFmClose (xs ++ l) = (findFmClose l).map (fun p => (xs ++ p.1, p.2)) := by
  intro xs
  induction xs with
  | nil =>
    intro l _
    cases h : findFmClose l <;> simp [h]
  | cons c cs ih =>
    intro l hn
    have hc : c ≠ '\n' := hn c (List.mem_cons_self c cs)
    have hcs : ∀ x ∈ cs, x ≠ '\n' := fun x hx => hn x (List.mem_cons_of_mem c hx)
    rw [List.cons_append, findFmClose]
    simp only [hc, decide_False, Bool.false_and, Bool.false_eq_true, if_false]
    rw [ih l hcs]
    cases h : findFmClose l <;> simp

theorem wsNlMax_cons_nl (b : Str) : ∃ n, wsNlMax ('\n' :: b) = some n := by
  have h : wsNlCands ('\n' :: b) = ((wsNlCands b).map (· + 1)) ++ [1] := by
    rw [wsNlCands]
    simp [pyIsSpace]
  cases hm : (wsNlCands b).map (· + 1) with
  | nil => exact ⟨1, by rw [wsNlMax, h, hm]; rfl⟩
  | cons a t => exact ⟨a, by rw [wsNlMax, h, hm]; rfl⟩

/-- Claim C7, counterexample: the title line `title: "Quick Start"` is
present in the header, but a preceding title line wins the search, so
extraction does not return `Quick Start`. -/
theorem c7_counterexample :
    containsL ("\ntitle: \"Quick Start\"\n".data)
      ("---\ntitle: A\ntitle: \"Quick Start\"\n---\nbody".data) = true ∧
    extract_frontmatter_title ("---\ntitle: A\ntitle: \"Quick Start\"\n---\nbody".data)
      ("/docs/x.mdx".data) = "A".data := by
  refine ⟨by decide, by decide⟩

/-- Claim C7 (amended): for every file whose metadata header consists of the
single line `title: "Quick Start"` — with arbitrary content after the
closing delimiter — extraction returns exactly `Quick Start`, quotes and
surrounding whitespace stripped.  (The unrestricted claim fails when an
earlier `title:` line precedes it in the header; see the counterexample.) -/
theorem c7_quick_start_title (b p : Str) :
    extract_frontmatter_title (("---\ntitle: \"Quick Start\"\n---\n".data) ++ b) p =
      "Quick Start".data := by
  obtain ⟨n, hn⟩ := wsNlMax_cons_nl b
  have h2 : findFmClose ('\n' :: '-' :: '-' :: '-' :: '\n' :: b) =
      some ([], ('\n' :: b).drop n) := by
    rw [findFmClose]
    have hd : List.drop 3 ('-' :: '-' :: '-' :: '\n' :: b) = '\n' :: b := rfl
    simp only [startsWithL, hd, hn, decide_True, Bool.true_and, Bool.and_true, if_true]
  have hclose : findFmClose (("title: \"Quick Start\"".data) ++
      ('\n' :: '-' :: '-' :: '-' :: '\n' :: b)) =
      some ("title: \"Quick Start\"".data, ('\n' :: b).drop n) := by
    rw [findFmClose_no_nl _ _ (by decide), h2]
    simp
  have hm : matchFrontmatter (("---\ntitle: \"Quick Start\"\n---\n".data) ++ b) =
      some ("title: \"Quick Start\"".data, ('\n' :: b).drop n) := by
    have hexp : ("---\ntitle: \"Quick Start\"\n---\n".data) ++ b =
        '-' :: '-' :: '-' :: '\n' :: (("title: \"Quick Start\"".data) ++
          ('\n' :: '-' :: '-' :: '-' :: '\n' :: b)) := rfl
    rw [hexp, matchFrontmatter]
    have hws : wsNlCands (List.drop 3
        ('-' :: '-' :: '-' :: '\n' :: (("title: \"Quick Start\"".data) ++
          ('\n' :: '-' :: '-' :: '-' :: '\n' :: b)))) = [1] := by
      show wsNlCands ('\n' :: 't' :: _) = [1]
      rw [wsNlCands, wsNlCands]
      simp [pyIsSpace]
    rw [if_pos (by rfl)]
    rw [hws]
    rw [List.findSome?]
    rw [show (List.drop 3
        ('-' :: '-' :: '-' :: '\n' :: (("title: \"Quick Start\"".data) ++
          ('\n' :: '-' :: '-' :: '-' :: '\n' :: b)))).drop 1 =
        ("title: \"Quick Start\"".data) ++ ('\n' :: '-' :: '-' :: '-' :: '\n' :: b) from rfl]
    rw [hclose]
  have hst : searchTitle ("title: \"Quick Start\"".data) = some ("Quick Start".data) := by
    decide
  unfold extract_frontmatter_title
  rw [hm]
  show (match searchTitle ("title: \"Quick Start\"".data) with
    | some v => listStrip v
    | none => fallbackTitle (basename p)) = "Quick Start".data
  rw [hst]
  show listStrip ("Quick Start".data) = "Quick Start".data
  decide

end CompileDocs
